import Mathlib

/-!
# Verification of radon `src/planner/expr.go`

A shallow embedding of the predicate-routing and select-rewrite analyzer of
the radon query planner (`src/planner/expr.go`), together with theorems
checking the natural-language specification against it.

The expression trees consumed by this core are produced by the external
`go-mysqlstack/sqlparser` collaborator.  The inductive types below model the
AST node kinds that `expr.go` distinguishes (plus a representative arithmetic
`binary` node standing for the remaining expression kinds, which `expr.go`
treats uniformly as "any other node").  Identifier back-quoting (`formatID`
for reserved words) and the string-typed db qualifier of `TableName` are not
modelled: identifiers are rendered verbatim, which coincides with the
collaborator's output for plain non-keyword identifiers.  The payloads of
`GroupConcatExpr` and `Subquery` are not modelled because every function in
`expr.go` rejects these nodes on sight without inspecting their contents.
-/

namespace Planner

/-- `SQLVal.Type` of the sqlparser collaborator. -/
inductive ValType : Type where
  | strVal
  | intVal
  | floatVal
  | hexNum
  | hexVal
  | valArg
  | bitVal
  deriving DecidableEq, Repr

mutual
/-- Expression nodes (`sqlparser.Expr`).  `col` models `*ColName` with its
table qualifier's name (empty string = unqualified); `sqlval` models
`*SQLVal`; `func` models `*FuncExpr` (name, distinct flag, argument list);
`binary` stands for `*BinaryExpr`-style compound nodes with two children. -/
inductive Expr : Type where
  | andE (l r : Expr)
  | paren (inner : Expr)
  | cmp (op : String) (l r : Expr)
  | col (qualifier name : String)
  | sqlval (ty : ValType) (v : String)
  | func (name : String) (distinct : Bool) (args : SelectExprs)
  | groupConcat
  | subquery
  | binary (op : String) (l r : Expr)

/-- Select-list items (`sqlparser.SelectExpr`): `*AliasedExpr` (expression
plus optional alias, empty = none), `*StarExpr` (optional qualifying table,
empty = none), `Nextval`. -/
inductive SelectExpr : Type where
  | aliased (e : Expr) (asStr : String)
  | star (tableName : String)
  | nextval (e : Expr)

/-- `sqlparser.SelectExprs` (a slice of select-list items). -/
inductive SelectExprs : Type where
  | nil
  | cons (hd : SelectExpr) (tl : SelectExprs)
end

deriving instance DecidableEq for Expr, SelectExpr, SelectExprs

/-- Length of a `SelectExprs` slice (`len(node.Exprs)`). -/
def selLength : SelectExprs → Nat
  | .nil => 0
  | .cons _ tl => selLength tl + 1

/-- The character escaping of `sqltypes` `encodeSQLString` (SQLEncodeMap). -/
def sqlEncodeChar (c : Char) : String :=
  if c = Char.ofNat 0 then "\\0"
  else if c = '\'' then "\\'"
  else if c = '\"' then "\\\""
  else if c = Char.ofNat 8 then "\\b"
  else if c = '\n' then "\\n"
  else if c = '\r' then "\\r"
  else if c = '\t' then "\\t"
  else if c = Char.ofNat 26 then "\\Z"
  else if c = '\\' then "\\\\"
  else String.singleton c

/-- String-literal encoding used when formatting a `StrVal` `SQLVal`. -/
def escapeSQLString (s : String) : String :=
  String.join (s.toList.map sqlEncodeChar)

/-- `(*SQLVal).Format` of the collaborator. -/
def formatSQLVal : ValType → String → String
  | .strVal, v => "'" ++ escapeSQLString v ++ "'"
  | .intVal, v => v
  | .floatVal, v => v
  | .hexNum, v => v
  | .hexVal, v => "X'" ++ v ++ "'"
  | .valArg, v => v
  | .bitVal, v => "B'" ++ v ++ "'"

mutual
/-- The collaborator's `Format` (TrackedBuffer serialization) on expression
nodes.  `groupConcat` and `subquery` render as fixed placeholders since their
payloads are not modelled (no function in `expr.go` ever serializes them
before rejecting them). -/
def formatExpr : Expr → String
  | .andE l r => formatExpr l ++ " and " ++ formatExpr r
  | .paren inner => "(" ++ formatExpr inner ++ ")"
  | .cmp op l r => formatExpr l ++ " " ++ op ++ " " ++ formatExpr r
  | .col q n => (if q = "" then "" else q ++ ".") ++ n
  | .sqlval ty v => formatSQLVal ty v
  | .func name distinct args =>
      name ++ "(" ++ (if distinct then "distinct " else "") ++
        formatSelectExprs args ++ ")"
  | .groupConcat => "group_concat()"
  | .subquery => "(subquery)"
  | .binary op l r => formatExpr l ++ " " ++ op ++ " " ++ formatExpr r

/-- `Format` on a single select-list item. -/
def formatSelectExpr : SelectExpr → String
  | .aliased e asStr => formatExpr e ++ (if asStr = "" then "" else " as " ++ asStr)
  | .star t => (if t = "" then "" else t ++ ".") ++ "*"
  | .nextval e => "next " ++ formatExpr e ++ " values"

/-- `Format` on `SelectExprs`: comma-separated items. -/
def formatSelectExprs : SelectExprs → String
  | .nil => ""
  | .cons hd .nil => formatSelectExpr hd
  | .cons hd tl => formatSelectExpr hd ++ ", " ++ formatSelectExprs tl
end

/-- The collaborator's `Aggregates` table: function names (lowercased) that
`(*FuncExpr).IsAggregate` classifies as aggregates. -/
def aggregateNames : List String :=
  ["avg", "bit_and", "bit_or", "bit_xor", "count", "group_concat",
   "max", "min", "std", "stddev_pop", "stddev_samp", "stddev",
   "sum", "var_pop", "var_samp", "variance"]

/-- ASCII lowercasing, modelling `strings.ToLower` on function names (SQL
function identifiers are ASCII). -/
def lowerString (s : String) : String :=
  String.mk (s.toList.map Char.toLower)

/-- `(*FuncExpr).IsAggregate`: membership of the lowercased name in
`Aggregates`. -/
def isAggregate (name : String) : Bool :=
  aggregateNames.contains (lowerString name)

/-! ## splitAndExpression, skipParenthesis -/

/-- The non-nil body of `splitAndExpression` (expr.go:79-88): an AND node
is flattened left subtree first; a parenthesized AND is unwrapped (the
recursive call is on the inner node, exactly as in the source); any other
node is appended as-is. -/
def splitAndExprNode : List Expr → Expr → List Expr
  | filters, .andE l r => splitAndExprNode (splitAndExprNode filters l) r
  | filters, .paren inner =>
      match inner with
      | .andE _ _ => splitAndExprNode filters inner
      | _ => filters ++ [.paren inner]
  | filters, node => filters ++ [node]

/-- `splitAndExpression` (expr.go:75): breaks the expression up into
AND-separated conjuncts appended to `filters`; a `nil` node (modelled as
`none`) contributes nothing. -/
def splitAndExpression (filters : List Expr) : Option Expr → List Expr
  | none => filters
  | some node => splitAndExprNode filters node

/-- `skipParenthesis` (expr.go:93): strips all outer `ParenExpr` wrappers. -/
def skipParenthesis : Expr → Expr
  | .paren inner => skipParenthesis inner
  | node => node

/-! ## getDMLRouting -/

/-- `nameMatch` (expr.go:56): the node is a `ColName` whose qualifier is
empty or equals `table` and whose name equals `shardkey`. -/
def nameMatch (node : Expr) (table shardkey : String) : Bool :=
  match node with
  | .col q n => (q = "" || q = table) && n = shardkey
  | _ => false

/-- The single call this core makes into the external `Router.Lookup`
collaborator: the database, table and the two key arguments.  The router's
answer is opaque to this core (it is returned unchanged), so the routing
decision is fully described by this call. -/
structure LookupCall where
  database : String
  table : String
  startKey : Option Expr
  endKey : Option Expr
  deriving DecidableEq

/-- The conjunct scan inside `getDMLRouting` (expr.go:22-39): each filter is
stripped of parentheses; non-comparisons, non-`=` operators, left sides that
fail `nameMatch` and non-`SQLVal` right sides are skipped; the first full
match returns the bounded lookup with the literal as both keys. -/
def routingLoop (database table shardkey : String) : List Expr → LookupCall
  | [] => ⟨database, table, none, none⟩
  | filter :: rest =>
    match skipParenthesis filter with
    | .cmp op l r =>
      if op = "=" then
        if nameMatch l table shardkey then
          match r with
          | .sqlval ty v => ⟨database, table, some (.sqlval ty v), some (.sqlval ty v)⟩
          | _ => routingLoop database table shardkey rest
        else routingLoop database table shardkey rest
      else routingLoop database table shardkey rest
    | _ => routingLoop database table shardkey rest

/-- `getDMLRouting` (expr.go:19): `w` models the nillable `*Where` clause
(its `Expr` field when present).  Returns the `Router.Lookup` call made. -/
def getDMLRouting (database table shardkey : String) (w : Option Expr) : LookupCall :=
  match w with
  | some whereExpr =>
      if shardkey = "" then ⟨database, table, none, none⟩
      else routingLoop database table shardkey (splitAndExpression [] (some whereExpr))
  | none => ⟨database, table, none, none⟩

/-! ## isShardKeyChanging -/

/-- `*ColName` as stored in an update assignment target (table qualifier
name and column name). -/
structure ColNameS where
  qualifier : String
  name : String
  deriving DecidableEq

/-- `sqlparser.UpdateExpr`: assignment target column and assigned value. -/
structure UpdateExpr where
  name : ColNameS
  expr : Expr

/-- `isShardKeyChanging` (expr.go:63): some assignment's target column name
equals the shardkey (the qualifier is not compared). -/
def isShardKeyChanging (exprs : List UpdateExpr) (shardkey : String) : Bool :=
  match exprs with
  | [] => false
  | assignment :: rest =>
      if shardkey = assignment.name.name then true
      else isShardKeyChanging rest shardkey

/-! ## checkComparison -/

/-- The conjunct scan of `checkComparison` (expr.go:103-113). -/
def checkLoop : List Expr → Option String
  | [] => none
  | filter :: rest =>
    match filter with
    | .cmp op l r =>
      match r with
      | .sqlval _ _ => checkLoop rest
      | _ => some ("unsupported: [" ++ formatExpr (.cmp op l r) ++ "].must.be.value.compare")
    | _ => checkLoop rest

/-- `checkComparison` (expr.go:101): decomposes the expression and rejects
the first conjunct that is a comparison whose right side is not a `SQLVal`.
`none` models a nil error. -/
def checkComparison (expr : Expr) : Option String :=
  checkLoop (splitAndExpression [] (some expr))

/-! ## parserSelectExpr / parserSelectExprs -/

/-- `selectTuple` (expr.go:123): the normalized description of one
select-list item.  The field names (including the `aggrFuc` spelling)
follow the source. -/
structure selectTuple where
  expr : SelectExpr
  field : String
  referTables : List String
  aggrFuc : String
  aggrField : String
  distinct : Bool
  deriving DecidableEq

/-- The local variables mutated by the visitor closure of
`parserSelectExpr` (expr.go:139-142), passed as explicit state. -/
structure WalkState where
  funcName : String
  aggrField : String
  distinct : Bool
  referTables : List String
  deriving DecidableEq

/-- Error messages of `parserSelectExpr` (expr.go:172,176,182,186,188) and
`parserSelectExprs` (expr.go:218). -/
def nestedAggrMsg (field : String) : String :=
  "unsupported: '" ++ field ++ "'.contain.aggregate.in.select.exprs"

def invalidGroupMsg (funcName : String) : String :=
  "unsupported: invalid.use.of.group.function[" ++ funcName ++ "]"

def syntaxErrMsg (field : String) : String :=
  "unsupported: syntax.error.at.'" ++ field ++ "'"

def groupConcatMsg : String := "unsupported: group_concat.in.select.exprs"

def subqueryMsg : String := "unsupported: subqueries.in.select.exprs"

def nextvalMsg : String := "unsupported: nextval.in.select.exprs"

/-- The `*ColName` case of the visitor (expr.go:157-167): an empty
qualifier is skipped; otherwise the qualifier is appended to `referTables`
unless already present. -/
def visitCol (st : WalkState) (tableName : String) : WalkState :=
  if tableName = "" then st
  else if tableName ∈ st.referTables then st
  else { st with referTables := st.referTables ++ [tableName] }

/-- The aggregate checks of the `*FuncExpr` case of the visitor
(expr.go:170-184).  `isTop` models the pointer comparison
`node != expr.Expr` (true exactly for the root node of the walk); the
caller has already recorded the distinct flag.  On success the function
name and the serialized argument are recorded. -/
def visitFunc (field : String) (isTop : Bool) (st : WalkState)
    (name : String) (args : SelectExprs) : Except String WalkState :=
  if isAggregate name then
    if isTop then
      if selLength args = 1 then
        if formatSelectExprs args = "*" && !(name = "count") then
          .error (syntaxErrMsg field)
        else
          .ok { st with funcName := name, aggrField := formatSelectExprs args }
      else .error (invalidGroupMsg name)
    else .error (nestedAggrMsg field)
  else .ok st

/-- Explicit sequencing of the walk (`sqlparser.Walk` stops at the first
visitor error). -/
def bindE (x : Except String WalkState)
    (f : WalkState → Except String WalkState) : Except String WalkState :=
  match x with
  | .error m => .error m
  | .ok st => f st

mutual
/-- The walk of `sqlparser.Walk` with the visitor closure of
`parserSelectExpr` (expr.go:155-191) fused in: each node's visitor action
(preorder) precedes the walk of its children, and a visitor error aborts
the walk.  Nodes the visitor's type switch does not match (`andE`, `paren`,
`cmp`, `binary`, `sqlval`, the select-list wrappers and identifier leaves)
contribute nothing and their children are walked left to right, matching
the collaborator's `walkSubtree` order. -/
def walkExpr (field : String) (isTop : Bool) (st : WalkState) :
    Expr → Except String WalkState
  | .andE l r =>
      bindE (walkExpr field false st l) fun st1 => walkExpr field false st1 r
  | .paren inner => walkExpr field false st inner
  | .cmp _ l r =>
      bindE (walkExpr field false st l) fun st1 => walkExpr field false st1 r
  | .col q _ => .ok (visitCol st q)
  | .sqlval _ _ => .ok st
  | .func name distinct args =>
      bindE (visitFunc field isTop { st with distinct := distinct } name args)
        fun st1 => walkSelectExprs field st1 args
  | .groupConcat => .error groupConcatMsg
  | .subquery => .error subqueryMsg
  | .binary _ l r =>
      bindE (walkExpr field false st l) fun st1 => walkExpr field false st1 r

/-- Walk of a select-list item inside a function argument list. -/
def walkSelectExpr (field : String) (st : WalkState) :
    SelectExpr → Except String WalkState
  | .aliased e _ => walkExpr field false st e
  | .star _ => .ok st
  | .nextval e => walkExpr field false st e

/-- Walk of a `SelectExprs` slice, left to right. -/
def walkSelectExprs (field : String) (st : WalkState) :
    SelectExprs → Except String WalkState
  | .nil => .ok st
  | .cons hd tl =>
      bindE (walkSelectExpr field st hd) fun st1 => walkSelectExprs field st1 tl
end

/-- The output-field resolution of `parserSelectExpr` (expr.go:144-153):
the explicit alias if present, else the bare column name for a column
reference, else the serialized text of the whole aliased expression. -/
def fieldOf (e : Expr) (asStr : String) : String :=
  if asStr = "" then
    match e with
    | .col _ n => n
    | _ => formatSelectExpr (.aliased e asStr)
  else asStr

/-- `parserSelectExpr` (expr.go:138): resolves the output field, walks the
expression and assembles the `selectTuple`. -/
def parserSelectExpr (e : Expr) (asStr : String) : Except String selectTuple :=
  let field := fieldOf e asStr
  match walkExpr field true ⟨"", "", false, []⟩ e with
  | .error m => .error m
  | .ok st =>
      .ok ⟨.aliased e asStr, field, st.referTables, st.funcName, st.aggrField, st.distinct⟩

/-- `parserSelectExprs` (expr.go:199): parses the select-list items in
order; a star projection yields a tuple with field `*` and the qualifying
table (if any); a `Nextval` item fails the whole call; the first error is
returned with no partial result. -/
def parserSelectExprs : SelectExprs → Except String (List selectTuple)
  | .nil => .ok []
  | .cons se rest =>
    match se with
    | .aliased e asStr =>
      match parserSelectExpr e asStr with
      | .error m => .error m
      | .ok tuple => (parserSelectExprs rest).map (tuple :: ·)
    | .star t =>
      let tuple : selectTuple := ⟨se, "*", if t = "" then [] else [t], "", "", false⟩
      (parserSelectExprs rest).map (tuple :: ·)
    | .nextval _ => .error nextvalMsg

/-! ## checkInTuple, decomposeAvg -/

/-- `checkInTuple` (expr.go:224): some tuple's field is `*` or the queried
field, and either no table is queried, or the tuple refers to no table, or
it refers to exactly the one queried table. -/
def checkInTuple (field table : String) : List selectTuple → Bool
  | [] => false
  | tuple :: rest =>
      if tuple.field = "*" || tuple.field = field then
        if table = "" || tuple.referTables.length = 0 then true
        else if tuple.referTables.length = 1 && tuple.referTables.headI = table then true
        else checkInTuple field table rest
      else checkInTuple field table rest

/-- `decomposeAvg` (expr.go:239): builds `sum(aggrField)` aliased to the
tuple's field, and `count(aggrField)` with no alias, in that order.  The
arguments are `NewValArg` nodes built from the tuple's `aggrField`, as in
the source. -/
def decomposeAvg (tuple : selectTuple) : List SelectExpr :=
  let sum := SelectExpr.aliased
    (.func "sum" false (.cons (.aliased (.sqlval .valArg tuple.aggrField) "") .nil))
    tuple.field
  let count := SelectExpr.aliased
    (.func "count" false (.cons (.aliased (.sqlval .valArg tuple.aggrField) "") .nil))
    ""
  [sum, count]

/-! ## Specification-side vocabulary

Definitions in this section formalize the wording of the specification's
claims, to be compared with the source functions above. -/

/-- The node is an `AndExpr`. -/
def isAndNode : Expr → Bool
  | .andE _ _ => true
  | _ => false

/-- The node is a parenthesized `AndExpr`. -/
def isParenAnd : Expr → Bool
  | .paren (.andE _ _) => true
  | _ => false

/-- The node is a literal value (`*SQLVal`). -/
def isSQLValB : Expr → Bool
  | .sqlval _ _ => true
  | _ => false

/-- The error component of a fallible result. -/
def errOf {α : Type} : Except String α → Option String
  | .error m => some m
  | .ok _ => none

/-- First-defined choice on optional error messages. -/
def optOr (a b : Option String) : Option String :=
  match a with
  | some m => some m
  | none => b

/-- Claim C1's conjunct predicate, following the claim's words: the conjunct
itself is an equality comparison whose left side is a column reference named
`shardkey` with no qualifier or a qualifier equal to `table`, and whose
right side is a literal value. -/
def claimEqualityLiteralMatch (table shardkey : String) : Expr → Bool
  | .cmp op l r => op = "=" && nameMatch l table shardkey && isSQLValB r
  | _ => false

/-- The literal extracted from a conjunct that fully matches the routing
pattern (after the caller has stripped parentheses): an `=` comparison whose
left side passes `nameMatch` and whose right side is a `SQLVal`. -/
def routingLiteralOf (table shardkey : String) : Expr → Option Expr
  | .cmp op l r =>
      if op = "=" then
        if nameMatch l table shardkey then
          match r with
          | .sqlval ty v => some (.sqlval ty v)
          | _ => none
        else none
      else none
  | _ => none

/-- The amended claim C1's description of the routing resolution: an
unbounded lookup when the shardkey is empty or the where clause is absent;
otherwise the first decomposed conjunct that, after stripping any enclosing
parentheses, is an equality on the shardkey column with a literal right
side, determines a bounded lookup with that literal as both keys; if no
conjunct matches, the unbounded lookup. -/
def resolveRoutingAmended (database table shardkey : String) (w : Option Expr) : LookupCall :=
  match w with
  | none => ⟨database, table, none, none⟩
  | some e =>
      if shardkey = "" then ⟨database, table, none, none⟩
      else
        match (splitAndExpression [] (some e)).findSome?
            (fun f => routingLiteralOf table shardkey (skipParenthesis f)) with
        | some v => ⟨database, table, some v, some v⟩
        | none => ⟨database, table, none, none⟩

/-- Claim C5's violation predicate: the conjunct is a comparison whose
right side is not a literal value. -/
def violatesCompare : Expr → Bool
  | .cmp _ _ r => !(isSQLValB r)
  | _ => false

/-- The error message `checkComparison` produces for an offending
conjunct. -/
def compareErrMsg (f : Expr) : String :=
  "unsupported: [" ++ formatExpr f ++ "].must.be.value.compare"

/-- `n`-fold parenthesization of an expression. -/
def parenWrap : Nat → Expr → Expr
  | 0, e => e
  | k + 1, e => .paren (parenWrap k e)

/-- The visitor-level violation of claim C3 at one node: a `GroupConcat`
call, a subquery, or an aggregate function call that is not the top-level
expression node, or does not have exactly one argument, or whose serialized
argument is `*` while its name is not `count`.  Returns the error message
the visitor produces there. -/
def funcViolation (field : String) (isTop : Bool) (name : String)
    (args : SelectExprs) : Option String :=
  if isAggregate name then
    if isTop then
      if selLength args = 1 then
        if formatSelectExprs args = "*" && !(name = "count") then
          some (syntaxErrMsg field)
        else none
      else some (invalidGroupMsg name)
    else some (nestedAggrMsg field)
  else none

mutual
/-- The first violating node of claim C3 in the walk's preorder, with the
error message produced there; `none` when the expression contains no
violating node. -/
def firstViolation (field : String) (isTop : Bool) : Expr → Option String
  | .andE l r =>
      optOr (firstViolation field false l) (firstViolation field false r)
  | .paren inner => firstViolation field false inner
  | .cmp _ l r =>
      optOr (firstViolation field false l) (firstViolation field false r)
  | .col _ _ => none
  | .sqlval _ _ => none
  | .func name _ args =>
      optOr (funcViolation field isTop name args) (firstViolationSelectExprs field args)
  | .groupConcat => some groupConcatMsg
  | .subquery => some subqueryMsg
  | .binary _ l r =>
      optOr (firstViolation field false l) (firstViolation field false r)

/-- First violation inside one select-list item. -/
def firstViolationSelectExpr (field : String) : SelectExpr → Option String
  | .aliased e _ => firstViolation field false e
  | .star _ => none
  | .nextval e => firstViolation field false e

/-- First violation inside a select-list slice, left to right. -/
def firstViolationSelectExprs (field : String) : SelectExprs → Option String
  | .nil => none
  | .cons hd tl =>
      optOr (firstViolationSelectExpr field hd) (firstViolationSelectExprs field tl)
end

mutual
/-- The table qualifiers of the column references of an expression, in the
walk's preorder, with unqualified references skipped (duplicates kept). -/
def tablesOfExpr : Expr → List String
  | .andE l r => tablesOfExpr l ++ tablesOfExpr r
  | .paren inner => tablesOfExpr inner
  | .cmp _ l r => tablesOfExpr l ++ tablesOfExpr r
  | .col q _ => if q = "" then [] else [q]
  | .sqlval _ _ => []
  | .func _ _ args => tablesOfSelectExprs args
  | .groupConcat => []
  | .subquery => []
  | .binary _ l r => tablesOfExpr l ++ tablesOfExpr r

/-- Table qualifiers inside one select-list item. -/
def tablesOfSelectExpr : SelectExpr → List String
  | .aliased e _ => tablesOfExpr e
  | .star _ => []
  | .nextval e => tablesOfExpr e

/-- Table qualifiers inside a select-list slice. -/
def tablesOfSelectExprs : SelectExprs → List String
  | .nil => []
  | .cons hd tl => tablesOfSelectExpr hd ++ tablesOfSelectExprs tl
end

/-- Append an element to an insertion-ordered set unless already present. -/
def insertAbsent (acc : List String) (x : String) : List String :=
  if x ∈ acc then acc else acc ++ [x]

/-- Deduplication preserving first-seen order. -/
def dedupFirstSeen (xs : List String) : List String :=
  List.foldl insertAbsent [] xs

/-- The components of a `selectTuple` that claim C4 describes: the output
field and the referred tables. -/
def projTuple (t : selectTuple) : String × List String :=
  (t.field, t.referTables)

/-- Claim C4's description of `parserSelectExprs`, restricted to the
components it talks about: items are processed in order; an aliased item
whose expression contains a violation (claim C3) fails the whole call,
otherwise it contributes its resolved field and the deduplicated first-seen
table qualifiers of its expression; a star item contributes field `*` with
the qualifying table if present; a `Nextval` item fails the whole call;
failure produces no partial result (`none`). -/
def specParseAll : SelectExprs → Option (List (String × List String))
  | .nil => some []
  | .cons (.aliased e asStr) rest =>
      if (firstViolation (fieldOf e asStr) true e).isSome then none
      else (specParseAll rest).map ((fieldOf e asStr, dedupFirstSeen (tablesOfExpr e)) :: ·)
  | .cons (.star t) rest =>
      (specParseAll rest).map (("*", if t = "" then [] else [t]) :: ·)
  | .cons (.nextval _) _ => none

/-- Success projection of a parse result onto the components claim C4
describes. -/
def okProj : Except String (List selectTuple) → Option (List (String × List String))
  | .error _ => none
  | .ok ts => some (ts.map projTuple)

/-! ## Lemmas about the expression decomposer -/

/-- The accumulator of `splitAndExprNode` is a prefix of its result. -/
theorem splitAndExprNode_append : ∀ (e : Expr) (filters : List Expr),
    splitAndExprNode filters e = filters ++ splitAndExprNode [] e
  | .andE l r, filters => by
      have hl := splitAndExprNode_append l
      have hr := splitAndExprNode_append r
      simp only [splitAndExprNode]
      rw [hr (splitAndExprNode filters l), hl filters,
        hr (splitAndExprNode [] l), List.append_assoc]
  | .paren inner, filters => by
      cases inner with
      | andE l r =>
          have h := splitAndExprNode_append (Expr.andE l r)
          simp only [splitAndExprNode]
          exact h filters
      | paren i => simp [splitAndExprNode]
      | cmp op a b => simp [splitAndExprNode]
      | col q n => simp [splitAndExprNode]
      | sqlval ty v => simp [splitAndExprNode]
      | func n d args => simp [splitAndExprNode]
      | groupConcat => simp [splitAndExprNode]
      | subquery => simp [splitAndExprNode]
      | binary op a b => simp [splitAndExprNode]
  | .cmp op a b, filters => by simp [splitAndExprNode]
  | .col q n, filters => by simp [splitAndExprNode]
  | .sqlval ty v, filters => by simp [splitAndExprNode]
  | .func n d args, filters => by simp [splitAndExprNode]
  | .groupConcat, filters => by simp [splitAndExprNode]
  | .subquery, filters => by simp [splitAndExprNode]
  | .binary op a b, filters => by simp [splitAndExprNode]

/-- A node that is neither an AND nor a parenthesized AND decomposes to
itself alone. -/
theorem splitAndExprNode_single (e : Expr) (hA : isAndNode e = false)
    (hP : isParenAnd e = false) : splitAndExprNode [] e = [e] := by
  cases e with
  | andE l r => simp [isAndNode] at hA
  | paren inner =>
      cases inner with
      | andE l r => simp [isParenAnd] at hP
      | paren i => simp [splitAndExprNode]
      | cmp op a b => simp [splitAndExprNode]
      | col q n => simp [splitAndExprNode]
      | sqlval ty v => simp [splitAndExprNode]
      | func n d args => simp [splitAndExprNode]
      | groupConcat => simp [splitAndExprNode]
      | subquery => simp [splitAndExprNode]
      | binary op a b => simp [splitAndExprNode]
  | cmp op a b => simp [splitAndExprNode]
  | col q n => simp [splitAndExprNode]
  | sqlval ty v => simp [splitAndExprNode]
  | func n d args => simp [splitAndExprNode]
  | groupConcat => simp [splitAndExprNode]
  | subquery => simp [splitAndExprNode]
  | binary op a b => simp [splitAndExprNode]

/-! ## Lemmas about the routing resolver -/

/-- `skipParenthesis` is blind to `parenWrap`. -/
theorem skipParenthesis_parenWrap : ∀ (k : Nat) (e : Expr),
    skipParenthesis (parenWrap k e) = skipParenthesis e
  | 0, e => rfl
  | k + 1, e => by
      rw [parenWrap, show skipParenthesis (.paren (parenWrap k e)) = skipParenthesis (parenWrap k e) from rfl,
        skipParenthesis_parenWrap k e]

/-- One step of the conjunct scan of `getDMLRouting`, phrased through the
match predicate. -/
theorem routingLoop_cons (database table shardkey : String) (f : Expr) (rest : List Expr) :
    routingLoop database table shardkey (f :: rest) =
      match routingLiteralOf table shardkey (skipParenthesis f) with
      | some v => ⟨database, table, some v, some v⟩
      | none => routingLoop database table shardkey rest := by
  simp only [routingLoop]
  cases skipParenthesis f with
  | cmp op l r =>
      simp only [routingLiteralOf]
      by_cases hop : op = "="
      · simp only [hop, if_pos rfl]
        by_cases hnm : nameMatch l table shardkey
        · simp only [hnm, if_pos rfl]
          cases r <;> rfl
        · simp only [hnm]
          simp
      · simp [hop]
  | andE l r => rfl
  | paren inner => rfl
  | col q n => rfl
  | sqlval ty v => rfl
  | func n d args => rfl
  | groupConcat => rfl
  | subquery => rfl
  | binary op l r => rfl

/-- The conjunct scan of `getDMLRouting` returns the bounded lookup keyed by
the first conjunct that matches after paren-stripping, else the unbounded
lookup. -/
theorem routingLoop_eq (database table shardkey : String) :
    ∀ filters : List Expr,
    routingLoop database table shardkey filters =
      match filters.findSome? (fun f => routingLiteralOf table shardkey (skipParenthesis f)) with
      | some v => ⟨database, table, some v, some v⟩
      | none => ⟨database, table, none, none⟩
  | [] => rfl
  | f :: rest => by
      rw [routingLoop_cons, List.findSome?_cons]
      cases routingLiteralOf table shardkey (skipParenthesis f) with
      | some v => rfl
      | none => exact routingLoop_eq database table shardkey rest

/-! ## Lemmas about the comparison validator -/

/-- The scan of `checkComparison` reports the first violating conjunct. -/
theorem checkLoop_eq : ∀ fs : List Expr,
    checkLoop fs = (fs.find? violatesCompare).map compareErrMsg
  | [] => rfl
  | f :: rest => by
      cases f with
      | cmp op l r =>
          cases hr : r with
          | sqlval ty v =>
              rw [List.find?_cons_of_neg _ (by simp [violatesCompare, isSQLValB])]
              exact checkLoop_eq rest
          | andE a b =>
              rw [List.find?_cons_of_pos _ (by simp [violatesCompare, isSQLValB])]; rfl
          | paren i =>
              rw [List.find?_cons_of_pos _ (by simp [violatesCompare, isSQLValB])]; rfl
          | cmp o a b =>
              rw [List.find?_cons_of_pos _ (by simp [violatesCompare, isSQLValB])]; rfl
          | col q n =>
              rw [List.find?_cons_of_pos _ (by simp [violatesCompare, isSQLValB])]; rfl
          | func n d args =>
              rw [List.find?_cons_of_pos _ (by simp [violatesCompare, isSQLValB])]; rfl
          | groupConcat =>
              rw [List.find?_cons_of_pos _ (by simp [violatesCompare, isSQLValB])]; rfl
          | subquery =>
              rw [List.find?_cons_of_pos _ (by simp [violatesCompare, isSQLValB])]; rfl
          | binary o a b =>
              rw [List.find?_cons_of_pos _ (by simp [violatesCompare, isSQLValB])]; rfl
      | andE l r =>
          rw [List.find?_cons_of_neg _ (by simp [violatesCompare])]
          exact checkLoop_eq rest
      | paren inner =>
          rw [List.find?_cons_of_neg _ (by simp [violatesCompare])]
          exact checkLoop_eq rest
      | col q n =>
          rw [List.find?_cons_of_neg _ (by simp [violatesCompare])]
          exact checkLoop_eq rest
      | sqlval ty v =>
          rw [List.find?_cons_of_neg _ (by simp [violatesCompare])]
          exact checkLoop_eq rest
      | func n d args =>
          rw [List.find?_cons_of_neg _ (by simp [violatesCompare])]
          exact checkLoop_eq rest
      | groupConcat =>
          rw [List.find?_cons_of_neg _ (by simp [violatesCompare])]
          exact checkLoop_eq rest
      | subquery =>
          rw [List.find?_cons_of_neg _ (by simp [violatesCompare])]
          exact checkLoop_eq rest
      | binary o a b =>
          rw [List.find?_cons_of_neg _ (by simp [violatesCompare])]
          exact checkLoop_eq rest

/-! ## Lemmas about the select-expression walk: error side -/

/-- The visitor's aggregate checks error exactly at claim C3's function-call
violations, with the corresponding message; the incoming state is
irrelevant to the outcome kind. -/
theorem errOf_visitFunc (field : String) (isTop : Bool) (st : WalkState)
    (name : String) (args : SelectExprs) :
    errOf (visitFunc field isTop st name args) = funcViolation field isTop name args := by
  unfold visitFunc funcViolation
  split_ifs <;> rfl

/-- Sequencing two child walks: the first error wins, and the error of the
second child does not depend on the state the first child produced. -/
theorem errOf_bindE_walk (field : String) (st : WalkState) (l r : Expr)
    (hl : ∀ st, errOf (walkExpr field false st l) = firstViolation field false l)
    (hr : ∀ st, errOf (walkExpr field false st r) = firstViolation field false r) :
    errOf (bindE (walkExpr field false st l) fun st1 => walkExpr field false st1 r)
      = optOr (firstViolation field false l) (firstViolation field false r) := by
  cases h : walkExpr field false st l with
  | error m =>
      have hm := hl st
      rw [h] at hm
      rw [← hm]
      simp [bindE, errOf, optOr]
  | ok st1 =>
      have hm := hl st
      rw [h] at hm
      rw [← hm]
      simp only [bindE, errOf, optOr]
      exact hr st1

mutual
/-- The walk of `parserSelectExpr` fails exactly when the expression has a
violating node, with the message of the first one in preorder; the outcome
does not depend on the incoming state. -/
theorem walkExpr_err (field : String) (isTop : Bool) (st : WalkState) (e : Expr) :
    errOf (walkExpr field isTop st e) = firstViolation field isTop e := by
  cases e with
  | andE l r =>
      simp only [walkExpr, firstViolation]
      exact errOf_bindE_walk field st l r
        (fun st => walkExpr_err field false st l) (fun st => walkExpr_err field false st r)
  | paren inner =>
      simp only [walkExpr, firstViolation]
      exact walkExpr_err field false st inner
  | cmp op l r =>
      simp only [walkExpr, firstViolation]
      exact errOf_bindE_walk field st l r
        (fun st => walkExpr_err field false st l) (fun st => walkExpr_err field false st r)
  | col q n => rfl
  | sqlval ty v => rfl
  | func name distinct args =>
      simp only [walkExpr, firstViolation]
      cases h : visitFunc field isTop { st with distinct := distinct } name args with
      | error m =>
          have hm := errOf_visitFunc field isTop { st with distinct := distinct } name args
          rw [h] at hm
          rw [← hm]
          simp [bindE, errOf, optOr]
      | ok st1 =>
          have hm := errOf_visitFunc field isTop { st with distinct := distinct } name args
          rw [h] at hm
          rw [← hm]
          simp only [bindE, errOf, optOr]
          exact walkSelectExprs_err field st1 args
  | groupConcat => rfl
  | subquery => rfl
  | binary op l r =>
      simp only [walkExpr, firstViolation]
      exact errOf_bindE_walk field st l r
        (fun st => walkExpr_err field false st l) (fun st => walkExpr_err field false st r)

/-- Error side of the walk of one select-list item. -/
theorem walkSelectExpr_err (field : String) (st : WalkState) (se : SelectExpr) :
    errOf (walkSelectExpr field st se) = firstViolationSelectExpr field se := by
  cases se with
  | aliased e a =>
      simp only [walkSelectExpr, firstViolationSelectExpr]
      exact walkExpr_err field false st e
  | star t => rfl
  | nextval e =>
      simp only [walkSelectExpr, firstViolationSelectExpr]
      exact walkExpr_err field false st e

/-- Error side of the walk of a select-list slice. -/
theorem walkSelectExprs_err (field : String) (st : WalkState) (es : SelectExprs) :
    errOf (walkSelectExprs field st es) = firstViolationSelectExprs field es := by
  cases es with
  | nil => rfl
  | cons hd tl =>
      simp only [walkSelectExprs, firstViolationSelectExprs]
      cases h : walkSelectExpr field st hd with
      | error m =>
          have hm := walkSelectExpr_err field st hd
          rw [h] at hm
          rw [← hm]
          simp [bindE, errOf, optOr]
      | ok st1 =>
          have hm := walkSelectExpr_err field st hd
          rw [h] at hm
          rw [← hm]
          simp only [bindE, errOf, optOr]
          exact walkSelectExprs_err field st1 tl
end

/-! ## Lemmas about the select-expression walk: referred tables -/

/-- Inversion of the walk sequencing on success. -/
theorem bindE_eq_ok {x : Except String WalkState}
    {f : WalkState → Except String WalkState} {st' : WalkState}
    (h : bindE x f = .ok st') : ∃ st1, x = .ok st1 ∧ f st1 = .ok st' := by
  cases x with
  | error m => simp [bindE] at h
  | ok st1 => exact ⟨st1, rfl, h⟩

/-- The column-reference case of the visitor implements ordered
insert-if-absent on the accumulated tables. -/
theorem visitCol_referTables (st : WalkState) (q : String) :
    (visitCol st q).referTables
      = List.foldl insertAbsent st.referTables (if q = "" then [] else [q]) := by
  by_cases h1 : q = ""
  · simp [visitCol, h1]
  · by_cases h2 : q ∈ st.referTables
    · simp [visitCol, h1, h2, insertAbsent]
    · simp [visitCol, h1, h2, insertAbsent]

/-- The aggregate checks never touch the accumulated tables. -/
theorem visitFunc_ok_referTables (field : String) (isTop : Bool) (st : WalkState)
    (name : String) (args : SelectExprs) (st1 : WalkState)
    (h : visitFunc field isTop st name args = .ok st1) :
    st1.referTables = st.referTables := by
  unfold visitFunc at h
  split_ifs at h
  all_goals (injection h with h; subst h; rfl)

/-- Sequencing two child walks accumulates their table contributions in
order. -/
theorem tables_bindE_walk (field : String) (st st' : WalkState) (l r : Expr)
    (hl : ∀ st st', walkExpr field false st l = .ok st' →
        st'.referTables = List.foldl insertAbsent st.referTables (tablesOfExpr l))
    (hr : ∀ st st', walkExpr field false st r = .ok st' →
        st'.referTables = List.foldl insertAbsent st.referTables (tablesOfExpr r))
    (h : bindE (walkExpr field false st l) (fun st1 => walkExpr field false st1 r) = .ok st') :
    st'.referTables
      = List.foldl insertAbsent st.referTables (tablesOfExpr l ++ tablesOfExpr r) := by
  obtain ⟨st1, h1, h2⟩ := bindE_eq_ok h
  rw [List.foldl_append, ← hl st st1 h1]
  exact hr st1 st' h2

mutual
/-- A successful walk extends the accumulated tables with the expression's
column qualifiers, in preorder, skipping duplicates and unqualified
references. -/
theorem walkExpr_tables (field : String) (isTop : Bool) (st st' : WalkState) (e : Expr)
    (h : walkExpr field isTop st e = .ok st') :
    st'.referTables = List.foldl insertAbsent st.referTables (tablesOfExpr e) := by
  cases e with
  | andE l r =>
      simp only [walkExpr] at h
      simp only [tablesOfExpr]
      exact tables_bindE_walk field st st' l r
        (fun st st' h => walkExpr_tables field false st st' l h)
        (fun st st' h => walkExpr_tables field false st st' r h) h
  | paren inner =>
      simp only [walkExpr] at h
      simp only [tablesOfExpr]
      exact walkExpr_tables field false st st' inner h
  | cmp op l r =>
      simp only [walkExpr] at h
      simp only [tablesOfExpr]
      exact tables_bindE_walk field st st' l r
        (fun st st' h => walkExpr_tables field false st st' l h)
        (fun st st' h => walkExpr_tables field false st st' r h) h
  | col q n =>
      simp only [walkExpr] at h
      injection h with h
      subst h
      simp only [tablesOfExpr]
      exact visitCol_referTables st q
  | sqlval ty v =>
      simp only [walkExpr] at h
      injection h with h
      subst h
      rfl
  | func name distinct args =>
      simp only [walkExpr] at h
      obtain ⟨st1, h1, h2⟩ := bindE_eq_ok h
      have hv := visitFunc_ok_referTables field isTop { st with distinct := distinct }
        name args st1 h1
      simp only [tablesOfExpr]
      rw [walkSelectExprs_tables field st1 st' args h2, hv]
  | groupConcat => exact Except.noConfusion h
  | subquery => exact Except.noConfusion h
  | binary op l r =>
      simp only [walkExpr] at h
      simp only [tablesOfExpr]
      exact tables_bindE_walk field st st' l r
        (fun st st' h => walkExpr_tables field false st st' l h)
        (fun st st' h => walkExpr_tables field false st st' r h) h

/-- Table accumulation over one select-list item. -/
theorem walkSelectExpr_tables (field : String) (st st' : WalkState) (se : SelectExpr)
    (h : walkSelectExpr field st se = .ok st') :
    st'.referTables = List.foldl insertAbsent st.referTables (tablesOfSelectExpr se) := by
  cases se with
  | aliased e a =>
      simp only [walkSelectExpr] at h
      simp only [tablesOfSelectExpr]
      exact walkExpr_tables field false st st' e h
  | star t =>
      simp only [walkSelectExpr] at h
      injection h with h
      subst h
      rfl
  | nextval e =>
      simp only [walkSelectExpr] at h
      simp only [tablesOfSelectExpr]
      exact walkExpr_tables field false st st' e h

/-- Table accumulation over a select-list slice. -/
theorem walkSelectExprs_tables (field : String) (st st' : WalkState) (es : SelectExprs)
    (h : walkSelectExprs field st es = .ok st') :
    st'.referTables = List.foldl insertAbsent st.referTables (tablesOfSelectExprs es) := by
  cases es with
  | nil =>
      simp only [walkSelectExprs] at h
      injection h with h
      subst h
      rfl
  | cons hd tl =>
      simp only [walkSelectExprs] at h
      obtain ⟨st1, h1, h2⟩ := bindE_eq_ok h
      simp only [tablesOfSelectExprs]
      rw [List.foldl_append, ← walkSelectExpr_tables field st st1 hd h1]
      exact walkSelectExprs_tables field st1 st' tl h2
end

/-! ## Bridging lemmas for the select-expression parser -/

theorem errOf_eq_some {α : Type} {x : Except String α} {m : String}
    (h : errOf x = some m) : x = .error m := by
  cases x with
  | error m2 => injection h with h; rw [h]
  | ok a => simp [errOf] at h

theorem errOf_eq_none {α : Type} {x : Except String α}
    (h : errOf x = none) : ∃ a, x = .ok a := by
  cases x with
  | error m2 => simp [errOf] at h
  | ok a => exact ⟨a, rfl⟩

/-- `parserSelectExpr` fails exactly on the first violation of its
expression's walk. -/
theorem parserSelectExpr_errOf (e : Expr) (asStr : String) :
    errOf (parserSelectExpr e asStr) = firstViolation (fieldOf e asStr) true e := by
  have hw := walkExpr_err (fieldOf e asStr) true ⟨"", "", false, []⟩ e
  simp only [parserSelectExpr]
  cases h : walkExpr (fieldOf e asStr) true ⟨"", "", false, []⟩ e with
  | error m => rw [h] at hw; exact hw
  | ok st => rw [h] at hw; exact hw

/-- On success, `parserSelectExpr` resolves the field as specified and
collects the deduplicated first-seen table qualifiers. -/
theorem parserSelectExpr_ok_parts (e : Expr) (asStr : String) (t : selectTuple)
    (h : parserSelectExpr e asStr = .ok t) :
    t.field = fieldOf e asStr ∧ t.referTables = dedupFirstSeen (tablesOfExpr e) := by
  simp only [parserSelectExpr] at h
  cases hw : walkExpr (fieldOf e asStr) true ⟨"", "", false, []⟩ e with
  | error m => rw [hw] at h; exact Except.noConfusion h
  | ok st =>
      rw [hw] at h
      injection h with h
      subst h
      exact ⟨rfl, walkExpr_tables (fieldOf e asStr) true ⟨"", "", false, []⟩ st e hw⟩

/-- Recursive core of claim C4. -/
theorem parserSelectExprs_okProj : ∀ exprs : SelectExprs,
    okProj (parserSelectExprs exprs) = specParseAll exprs
  | .nil => rfl
  | .cons (.aliased e asStr) rest => by
      have ih := parserSelectExprs_okProj rest
      have herr := parserSelectExpr_errOf e asStr
      simp only [parserSelectExprs, specParseAll]
      cases hv : firstViolation (fieldOf e asStr) true e with
      | some m =>
          rw [hv] at herr
          rw [errOf_eq_some herr]
          simp [okProj]
      | none =>
          rw [hv] at herr
          obtain ⟨t, ht⟩ := errOf_eq_none herr
          rw [ht]
          obtain ⟨hf, hr⟩ := parserSelectExpr_ok_parts e asStr t ht
          simp only [Option.isSome_none, Bool.false_eq_true, if_false]
          cases hrest : parserSelectExprs rest with
          | error m2 =>
              rw [hrest] at ih
              simp only [okProj] at ih
              simp [Except.map, okProj, ← ih]
          | ok ts =>
              rw [hrest] at ih
              simp only [okProj] at ih
              simp [Except.map, okProj, ← ih, projTuple, hf, hr]
  | .cons (.star tb) rest => by
      have ih := parserSelectExprs_okProj rest
      simp only [parserSelectExprs, specParseAll]
      cases hrest : parserSelectExprs rest with
      | error m2 =>
          rw [hrest] at ih
          simp only [okProj] at ih
          simp [Except.map, okProj, ← ih]
      | ok ts =>
          rw [hrest] at ih
          simp only [okProj] at ih
          simp [Except.map, okProj, ← ih, projTuple]
  | .cons (.nextval e) rest => rfl

/-! ## Recursive cores of the membership claims -/

theorem checkInTuple_iff_core (field table : String) : ∀ tuples : List selectTuple,
    (checkInTuple field table tuples = true ↔
      ∃ t ∈ tuples, (t.field = "*" ∨ t.field = field) ∧
        (table = "" ∨ t.referTables = [] ∨ t.referTables = [table]))
  | [] => by simp [checkInTuple]
  | tuple :: rest => by
      have ih := checkInTuple_iff_core field table rest
      simp only [checkInTuple]
      split_ifs with h1 h2 h3
      · simp only [Bool.or_eq_true, decide_eq_true_eq] at h1 h2
        constructor
        · intro _
          refine ⟨tuple, List.mem_cons_self tuple rest, h1, ?_⟩
          rcases h2 with h2 | h2
          · exact Or.inl h2
          · exact Or.inr (Or.inl (List.length_eq_zero.mp h2))
        · intro _; rfl
      · simp only [Bool.or_eq_true, decide_eq_true_eq, Bool.and_eq_true] at h1 h3
        constructor
        · intro _
          refine ⟨tuple, List.mem_cons_self tuple rest, h1, Or.inr (Or.inr ?_)⟩
          obtain ⟨hlen, hhead⟩ := h3
          obtain ⟨a, ha⟩ := List.length_eq_one.mp hlen
          rw [ha]
          rw [ha] at hhead
          simp [List.headI] at hhead
          rw [hhead]
        · intro _; rfl
      · rw [ih]
        simp only [Bool.or_eq_true, decide_eq_true_eq, Bool.and_eq_true,
          not_or, not_and] at h2 h3
        constructor
        · rintro ⟨t, hmem, hprop⟩
          exact ⟨t, List.mem_cons_of_mem tuple hmem, hprop⟩
        · rintro ⟨t, hmem, hcond, htab⟩
          rcases List.mem_cons.mp hmem with heq | hmem2
          · subst heq
            rcases htab with htab | htab | htab
            · exact absurd htab h2.1
            · exact absurd (by rw [htab]; rfl) h2.2
            · exfalso
              apply h3 (by rw [htab]; rfl)
              rw [htab]
              rfl
          · exact ⟨t, hmem2, hcond, htab⟩
      · rw [ih]
        simp only [Bool.or_eq_true, decide_eq_true_eq, not_or] at h1
        constructor
        · rintro ⟨t, hmem, hprop⟩
          exact ⟨t, List.mem_cons_of_mem tuple hmem, hprop⟩
        · rintro ⟨t, hmem, hcond, htab⟩
          rcases List.mem_cons.mp hmem with heq | hmem2
          · subst heq
            rcases hcond with hc | hc
            · exact absurd hc h1.1
            · exact absurd hc h1.2
          · exact ⟨t, hmem2, hcond, htab⟩

theorem isShardKeyChanging_iff_core (shardkey : String) : ∀ exprs : List UpdateExpr,
    (isShardKeyChanging exprs shardkey = true ↔ ∃ a ∈ exprs, a.name.name = shardkey)
  | [] => by simp [isShardKeyChanging]
  | a :: rest => by
      have ih := isShardKeyChanging_iff_core shardkey rest
      simp only [isShardKeyChanging]
      split_ifs with h
      · exact iff_of_true rfl ⟨a, List.mem_cons_self a rest, h.symm⟩
      · rw [ih]
        constructor
        · rintro ⟨b, hmem, hb⟩
          exact ⟨b, List.mem_cons_of_mem a hmem, hb⟩
        · rintro ⟨b, hmem, hb⟩
          rcases List.mem_cons.mp hmem with heq | hmem2
          · subst heq; exact absurd hb.symm h
          · exact ⟨b, hmem2, hb⟩

/-! ## Claim theorems -/

/-- Claim C1, counterexample.  The claim classifies a conjunct by its own
shape ("is an equality comparison ..."), so on the where clause `(id = 5)` —
whose sole decomposed conjunct is a `ParenExpr`, not an equality
comparison — it predicts the unbounded lookup `Lookup(db, table, nil, nil)`.
The code strips parentheses before classifying and requests the bounded
lookup keyed by 5. -/
theorem getDMLRouting_claim_counterexample :
    splitAndExpression []
        (some (Expr.paren (Expr.cmp "=" (Expr.col "" "id") (Expr.sqlval .intVal "5"))))
      = [Expr.paren (Expr.cmp "=" (Expr.col "" "id") (Expr.sqlval .intVal "5"))]
    ∧ claimEqualityLiteralMatch "t" "id"
        (Expr.paren (Expr.cmp "=" (Expr.col "" "id") (Expr.sqlval .intVal "5"))) = false
    ∧ getDMLRouting "db" "t" "id"
        (some (Expr.paren (Expr.cmp "=" (Expr.col "" "id") (Expr.sqlval .intVal "5"))))
      = ⟨"db", "t", some (Expr.sqlval .intVal "5"), some (Expr.sqlval .intVal "5")⟩ :=
  ⟨rfl, rfl, rfl⟩

/-- Claim C1, amended: `getDMLRouting` requests the unbounded lookup
`Lookup(db, table, nil, nil)` whenever the routing key name is empty, the
where clause is absent, or no decomposed conjunct matches; otherwise, for
the first conjunct (in decomposition order) which — after stripping any
enclosing parentheses — is an equality comparison whose left side is a
column reference named after the routing key (with no qualifier or a
qualifier equal to the table name) and whose right side is a literal value,
it immediately returns `Lookup(db, table, literal, literal)` with the same
literal as both keys, never inspecting later conjuncts; in every call the
two key arguments passed to `Router.Lookup` are equal. -/
theorem getDMLRouting_amended (database table shardkey : String) (w : Option Expr) :
    getDMLRouting database table shardkey w
      = resolveRoutingAmended database table shardkey w
    ∧ (getDMLRouting database table shardkey w).startKey
      = (getDMLRouting database table shardkey w).endKey := by
  cases w with
  | none => exact ⟨rfl, rfl⟩
  | some e =>
      by_cases hsk : shardkey = ""
      · simp [getDMLRouting, resolveRoutingAmended, hsk]
      · simp only [getDMLRouting, resolveRoutingAmended, hsk, if_neg]
        rw [routingLoop_eq]
        refine ⟨rfl, ?_⟩
        cases (splitAndExpression [] (some e)).findSome?
            (fun f => routingLiteralOf table shardkey (skipParenthesis f)) with
        | some v => rfl
        | none => rfl

/-- Claim C2: decomposition of an AND node concatenates the decompositions
of its subtrees in order; a parenthesized AND decomposes identically; any
other single node (including a parenthesized non-AND expression) decomposes
to the one-element sequence holding that node; an absent expression
decomposes to the empty sequence. -/
theorem splitAndExpression_decompose :
    (∀ A B : Expr, splitAndExpression [] (some (.andE A B))
      = splitAndExpression [] (some A) ++ splitAndExpression [] (some B))
    ∧ (∀ A B : Expr, splitAndExpression [] (some (.paren (.andE A B)))
      = splitAndExpression [] (some (.andE A B)))
    ∧ (∀ e : Expr, isAndNode e = false → isParenAnd e = false →
      splitAndExpression [] (some e) = [e])
    ∧ splitAndExpression [] none = ([] : List Expr) := by
  refine ⟨?_, ?_, ?_, rfl⟩
  · intro A B
    show splitAndExprNode [] (.andE A B) = splitAndExprNode [] A ++ splitAndExprNode [] B
    simp only [splitAndExprNode]
    exact splitAndExprNode_append B (splitAndExprNode [] A)
  · intro A B
    rfl
  · intro e hA hP
    exact splitAndExprNode_single e hA hP

/-- Witness for claim C2's single-conjunct part, at the parenthesized
non-AND expression `(a)`. -/
theorem splitAndExpression_decompose_witness :
    isAndNode (Expr.paren (Expr.col "" "a")) = false
    ∧ isParenAnd (Expr.paren (Expr.col "" "a")) = false
    ∧ splitAndExpression [] (some (Expr.paren (Expr.col "" "a")))
        = [Expr.paren (Expr.col "" "a")] :=
  ⟨rfl, rfl, splitAndExpression_decompose.2.2.1 (Expr.paren (Expr.col "" "a")) rfl rfl⟩

/-- Claim C3: `parserSelectExpr` fails, producing no tuple, exactly when
the walked expression contains a violating node — an aggregate call that is
not the top-level expression node, an aggregate call without exactly one
argument, an aggregate whose serialized argument is `*` with a name other
than `count`, a GROUP_CONCAT call, or a subquery — and the walk
short-circuits at the first violating node in preorder, returning its
message. -/
theorem parserSelectExpr_rejects (e : Expr) (asStr : String) :
    errOf (parserSelectExpr e asStr) = firstViolation (fieldOf e asStr) true e
    ∧ ∀ m, firstViolation (fieldOf e asStr) true e = some m →
        parserSelectExpr e asStr = Except.error m := by
  refine ⟨parserSelectExpr_errOf e asStr, fun m hm => ?_⟩
  apply errOf_eq_some
  rw [parserSelectExpr_errOf e asStr, hm]

/-- Witness for claim C3 at `avg(x.a) + 1` (aggregate not top-level). -/
theorem parserSelectExpr_rejects_witness :
    parserSelectExpr
        (.binary "+" (.func "avg" false (.cons (.aliased (.col "x" "a") "") .nil))
          (.sqlval .intVal "1")) ""
      = Except.error "unsupported: 'avg(x.a) + 1'.contain.aggregate.in.select.exprs" :=
  (parserSelectExpr_rejects
    (.binary "+" (.func "avg" false (.cons (.aliased (.col "x" "a") "") .nil))
      (.sqlval .intVal "1")) "").2 _ rfl

/-- Claim C4: `parserSelectExprs` processes items in order; an aliased item
yields a tuple whose field is the explicit alias, else the bare column name
for a column reference, else the serialized expression, and whose
`referTables` are the distinct table qualifiers of its column references in
first-seen order (unqualified references skipped); a star projection yields
field `*` with exactly the qualifying table when present; a nextval item
fails the whole call with no partial result. -/
theorem parserSelectExprs_spec (exprs : SelectExprs) :
    okProj (parserSelectExprs exprs) = specParseAll exprs :=
  parserSelectExprs_okProj exprs

/-- Claim C5: `checkComparison` succeeds iff no decomposed conjunct is a
comparison with a non-literal right side, and otherwise reports the first
violating conjunct, naming its serialization. -/
theorem checkComparison_spec (e : Expr) :
    (checkComparison e = none ↔
      ∀ f ∈ splitAndExpression [] (some e), violatesCompare f = false)
    ∧ checkComparison e
      = ((splitAndExpression [] (some e)).find? violatesCompare).map compareErrMsg := by
  have h := checkLoop_eq (splitAndExpression [] (some e))
  refine ⟨?_, h⟩
  rw [show checkComparison e = checkLoop (splitAndExpression [] (some e)) from rfl, h]
  simp [List.find?_eq_none]

/-- Claim C6: `decomposeAvg` returns exactly two aliased expressions in
order: a function call named `sum` on the tuple's `aggrField` aliased to
the tuple's original field name, then a function call named `count` on the
same `aggrField` with no alias.  (The embedding is pure: the input tuple is
a value and no router state exists to consult.) -/
theorem decomposeAvg_spec (tuple : selectTuple) :
    decomposeAvg tuple =
      [SelectExpr.aliased
        (.func "sum" false (.cons (.aliased (.sqlval .valArg tuple.aggrField) "") .nil))
        tuple.field,
       SelectExpr.aliased
        (.func "count" false (.cons (.aliased (.sqlval .valArg tuple.aggrField) "") .nil))
        ""] := rfl

/-- Claim C7: `checkInTuple` is true iff some tuple's field is the queried
field or `*`, and the queried table is empty, or the tuple refers to no
tables, or it refers to exactly the one queried table — so a tuple with two
or more referred tables never satisfies a table-qualified lookup. -/
theorem checkInTuple_iff (field table : String) (tuples : List selectTuple) :
    checkInTuple field table tuples = true ↔
      ∃ t ∈ tuples, (t.field = "*" ∨ t.field = field) ∧
        (table = "" ∨ t.referTables = [] ∨ t.referTables = [table]) :=
  checkInTuple_iff_core field table tuples

/-- Claim C8: `isShardKeyChanging` is true iff some assignment's target
column name equals the routing key name (no qualifier comparison), and it
is false on the empty assignment list. -/
theorem isShardKeyChanging_iff (exprs : List UpdateExpr) (shardkey : String) :
    (isShardKeyChanging exprs shardkey = true ↔ ∃ a ∈ exprs, a.name.name = shardkey)
    ∧ isShardKeyChanging [] shardkey = false :=
  ⟨isShardKeyChanging_iff_core shardkey exprs, rfl⟩

/-- Claim C9: a comparison with a non-literal right side that is wrapped in
parentheses is never rejected by `checkComparison`: decomposition appends
the parenthesized node as-is, and the conjunct scan classifies it by its
outermost node type, which is not a comparison. -/
theorem checkComparison_paren (op : String) (l r : Expr) (_h : isSQLValB r = false) :
    splitAndExpression [] (some (.paren (.cmp op l r))) = [.paren (.cmp op l r)]
    ∧ checkComparison (.paren (.cmp op l r)) = none := by
  have hs : splitAndExpression [] (some (.paren (.cmp op l r))) = [.paren (.cmp op l r)] :=
    splitAndExprNode_single _ rfl rfl
  refine ⟨hs, ?_⟩
  rw [show checkComparison (.paren (.cmp op l r))
      = checkLoop (splitAndExpression [] (some (.paren (.cmp op l r)))) from rfl, hs]
  rfl

/-- Witness for claim C9 at the where clause `(t1.id = t2.id)`. -/
theorem checkComparison_paren_witness :
    isSQLValB (Expr.col "t2" "id") = false
    ∧ checkComparison (.paren (.cmp "=" (.col "t1" "id") (.col "t2" "id"))) = none :=
  ⟨rfl, (checkComparison_paren "=" (.col "t1" "id") (.col "t2" "id") rfl).2⟩

/-- Claim C10: `getDMLRouting` strips any number of nested parentheses from
a conjunct before classifying it, so a where clause that is a (possibly
repeatedly) parenthesized equality on the routing key with a literal right
side still produces the bounded lookup keyed by that literal. -/
theorem getDMLRouting_skipParen (k : Nat) (database table shardkey q : String)
    (ty : ValType) (v : String) (hsk : shardkey ≠ "") (hq : q = "" ∨ q = table) :
    skipParenthesis (parenWrap k (.cmp "=" (.col q shardkey) (.sqlval ty v)))
      = .cmp "=" (.col q shardkey) (.sqlval ty v)
    ∧ getDMLRouting database table shardkey
        (some (parenWrap (k + 1) (.cmp "=" (.col q shardkey) (.sqlval ty v))))
      = ⟨database, table, some (.sqlval ty v), some (.sqlval ty v)⟩ := by
  constructor
  · rw [skipParenthesis_parenWrap]
    rfl
  · simp only [getDMLRouting, hsk, if_neg]
    have hsplit : splitAndExpression []
        (some (parenWrap (k + 1) (.cmp "=" (.col q shardkey) (.sqlval ty v))))
        = [parenWrap (k + 1) (.cmp "=" (.col q shardkey) (.sqlval ty v))] := by
      apply splitAndExprNode_single
      · cases k <;> rfl
      · cases k <;> rfl
    rw [hsplit, routingLoop_cons, skipParenthesis_parenWrap (k + 1)]
    have hnm : nameMatch (.col q shardkey) table shardkey = true := by
      simp only [nameMatch]
      rcases hq with h | h <;> simp [h]
    simp [routingLiteralOf, skipParenthesis, hnm]

/-- Witness for claim C10 at the where clause `((id = 5))`. -/
theorem getDMLRouting_skipParen_witness :
    "id" ≠ "" ∧ ("" = "" ∨ "" = "t")
    ∧ getDMLRouting "db" "t" "id"
        (some (parenWrap 2 (.cmp "=" (.col "" "id") (.sqlval .intVal "5"))))
      = ⟨"db", "t", some (.sqlval .intVal "5"), some (.sqlval .intVal "5")⟩ :=
  ⟨by decide, Or.inl rfl,
    (getDMLRouting_skipParen 1 "db" "t" "id" "" .intVal "5" (by decide) (Or.inl rfl)).2⟩

end Planner
